import Mathlib

/-!
Shallow embedding of the prediction-market program
(src/programs/prediction_program/src/lib.rs) and proofs about it.

Machine integers are modelled as `Nat` with explicit range guards:
every Rust `checked_*` operation or fallible `try_into` becomes an
`if` guard against the relevant bound (`U64MAX` for `u64`,
`U128MAX` for `u128`), returning `Except.error MathOverflow`
exactly where the Rust `?` operator would propagate the error.
Account keys (`Pubkey`) are modelled as `Nat`, with `0` standing for
`Pubkey::default()`.  Token transfers (CPI calls) are external
effects; each instruction returns the amounts it would transfer
together with the updated account states, and an `Except.error`
models the transaction aborting with no state change.
-/

namespace Prediction

/-- FEE_BPS from lib.rs line 9 (0.50% fee). -/
def FEE_BPS : Nat := 50

/-- BPS_DENOM from lib.rs line 10. -/
def BPS_DENOM : Nat := 10000

/-- Largest value representable in a `u64`. -/
def U64MAX : Nat := 2 ^ 64 - 1

/-- Largest value representable in a `u128`. -/
def U128MAX : Nat := 2 ^ 128 - 1

/-- The `PredictionError` enum from lib.rs lines 781-817. -/
inductive PredictionError where
  | Unauthorized
  | InvalidMarketStatus
  | MarketExpired
  | InvalidOutcome
  | MathOverflow
  | MarketNotResolved
  | InvalidWinningOutcome
  | AlreadyClaimed
  | NoWinnings
  | PositionMarketMismatch
  | PositionOwnerMismatch
  | InvalidLiquidity
  | ZeroAmount
  | SlippageExceeded
  | ZeroSharesOut
  | InsufficientShares
  deriving DecidableEq, Repr

/-- `MarketStatus::Open as u8` (lib.rs lines 439-444). -/
def statusOpen : Nat := 0

/-- `MarketStatus::Resolved as u8`. -/
def statusResolved : Nat := 1

/-- `MarketStatus::Cancelled as u8`. -/
def statusCancelled : Nat := 2

/-- The `MarketV2` account (lib.rs lines 446-470).  The opaque account
keys `collateral_mint` and `vault` are not read by the arithmetic logic
and are omitted; `authority` is kept because `resolve_market` compares
against it.  `u8`/`i8`/`i64` fields keep their source types as
`Nat`/`Int`. -/
structure MarketV2 where
  market_id : Nat
  authority : Nat
  question : String
  end_time : Int
  status : Nat
  winning_outcome : Int
  yes_pool : Nat
  no_pool : Nat
  total_yes_shares : Nat
  total_no_shares : Nat
  resolved_vault_balance : Nat
  resolved_total_winning_shares : Nat
  deriving DecidableEq, Repr

/-- The `PositionV2` account (lib.rs lines 472-480). -/
structure PositionV2 where
  market : Nat
  owner : Nat
  yes_shares : Nat
  no_shares : Nat
  claimed : Bool
  deriving DecidableEq, Repr

/-- `CreateMarketCpmmArgs` (lib.rs lines 431-437). -/
structure CreateMarketCpmmArgs where
  market_id : Nat
  question : String
  end_time : Int
  initial_liquidity : Nat
  deriving DecidableEq, Repr

/-- `cpmm_buy_yes` (lib.rs lines 674-692).  Buying YES: add `net_in` to
the NO reserve, take YES out.  All intermediates are `u128`; each Rust
`checked_mul`/`checked_add`/`checked_div`/`checked_sub`/`try_into` with
`?` becomes a guard returning `MathOverflow`. -/
def cpmm_buy_yes (yes_pool no_pool net_in : Nat) :
    Except PredictionError (Nat × Nat × Nat) :=
  if ¬ (0 < yes_pool ∧ 0 < no_pool) then .error .InvalidLiquidity else
  let x := yes_pool
  let y := no_pool
  let dy := net_in
  if ¬ (x * y ≤ U128MAX) then .error .MathOverflow else
  let k := x * y
  if ¬ (y + dy ≤ U128MAX) then .error .MathOverflow else
  let y_new := y + dy
  if y_new = 0 then .error .MathOverflow else
  let x_new := k / y_new
  if ¬ (x_new ≤ x) then .error .MathOverflow else
  let out := x - x_new
  if ¬ (out ≤ U64MAX) then .error .MathOverflow else
  if ¬ (x_new ≤ U64MAX) then .error .MathOverflow else
  if ¬ (y_new ≤ U64MAX) then .error .MathOverflow else
  .ok (x_new, y_new, out)

/-- `cpmm_buy_no` (lib.rs lines 695-713).  Buying NO: add `net_in` to
the YES reserve, take NO out.  Roles of the reserves are swapped and
the returned tuple is `(new_yes, new_no, out) = (y_new, x_new, out)`. -/
def cpmm_buy_no (yes_pool no_pool net_in : Nat) :
    Except PredictionError (Nat × Nat × Nat) :=
  if ¬ (0 < yes_pool ∧ 0 < no_pool) then .error .InvalidLiquidity else
  let x := no_pool
  let y := yes_pool
  let dy := net_in
  if ¬ (x * y ≤ U128MAX) then .error .MathOverflow else
  let k := x * y
  if ¬ (y + dy ≤ U128MAX) then .error .MathOverflow else
  let y_new := y + dy
  if y_new = 0 then .error .MathOverflow else
  let x_new := k / y_new
  if ¬ (x_new ≤ x) then .error .MathOverflow else
  let out := x - x_new
  if ¬ (out ≤ U64MAX) then .error .MathOverflow else
  if ¬ (y_new ≤ U64MAX) then .error .MathOverflow else
  if ¬ (x_new ≤ U64MAX) then .error .MathOverflow else
  .ok (y_new, x_new, out)

/-- `cpmm_sell_yes` (lib.rs lines 716-732).  Selling YES: add
`shares_in` to the YES reserve, take NO out. -/
def cpmm_sell_yes (yes_pool no_pool shares_in : Nat) :
    Except PredictionError (Nat × Nat × Nat) :=
  if ¬ (0 < yes_pool ∧ 0 < no_pool) then .error .InvalidLiquidity else
  let x := yes_pool
  let y := no_pool
  let dx := shares_in
  if ¬ (x * y ≤ U128MAX) then .error .MathOverflow else
  let k := x * y
  if ¬ (x + dx ≤ U128MAX) then .error .MathOverflow else
  let x_new := x + dx
  if x_new = 0 then .error .MathOverflow else
  let y_new := k / x_new
  if ¬ (y_new ≤ y) then .error .MathOverflow else
  let out := y - y_new
  if ¬ (x_new ≤ U64MAX) then .error .MathOverflow else
  if ¬ (y_new ≤ U64MAX) then .error .MathOverflow else
  if ¬ (out ≤ U64MAX) then .error .MathOverflow else
  .ok (x_new, y_new, out)

/-- `cpmm_sell_no` (lib.rs lines 735-751).  Selling NO: add `shares_in`
to the NO reserve, take YES out; returns `(y_new, x_new, out)`. -/
def cpmm_sell_no (yes_pool no_pool shares_in : Nat) :
    Except PredictionError (Nat × Nat × Nat) :=
  if ¬ (0 < yes_pool ∧ 0 < no_pool) then .error .InvalidLiquidity else
  let x := no_pool
  let y := yes_pool
  let dx := shares_in
  if ¬ (x * y ≤ U128MAX) then .error .MathOverflow else
  let k := x * y
  if ¬ (x + dx ≤ U128MAX) then .error .MathOverflow else
  let x_new := x + dx
  if x_new = 0 then .error .MathOverflow else
  let y_new := k / x_new
  if ¬ (y_new ≤ y) then .error .MathOverflow else
  let out := y - y_new
  if ¬ (y_new ≤ U64MAX) then .error .MathOverflow else
  if ¬ (x_new ≤ U64MAX) then .error .MathOverflow else
  if ¬ (out ≤ U64MAX) then .error .MathOverflow else
  .ok (y_new, x_new, out)

/-- `apply_fee_in` (lib.rs lines 756-765).  The multiplication
`gross_in.checked_mul(FEE_BPS)` is `u64` arithmetic, so the guard is
against `U64MAX`, not `U128MAX`. -/
def apply_fee_in (gross_in : Nat) : Except PredictionError (Nat × Nat) :=
  if ¬ (gross_in * FEE_BPS ≤ U64MAX) then .error .MathOverflow else
  if BPS_DENOM = 0 then .error .MathOverflow else
  let fee := gross_in * FEE_BPS / BPS_DENOM
  if ¬ (fee ≤ gross_in) then .error .MathOverflow else
  .ok (gross_in - fee, fee)

/-- `apply_fee_out` (lib.rs lines 767-776); textually the same
computation as `apply_fee_in`. -/
def apply_fee_out (gross_out : Nat) : Except PredictionError (Nat × Nat) :=
  if ¬ (gross_out * FEE_BPS ≤ U64MAX) then .error .MathOverflow else
  if BPS_DENOM = 0 then .error .MathOverflow else
  let fee := gross_out * FEE_BPS / BPS_DENOM
  if ¬ (fee ≤ gross_out) then .error .MathOverflow else
  .ok (gross_out - fee, fee)

/-- `create_market_cpmm` (lib.rs lines 21-68).  Returns the freshly
initialised market together with the backing amount `2 * L`
transferred into the vault. -/
def create_market_cpmm (authorityKey : Nat) (args : CreateMarketCpmmArgs) :
    Except PredictionError (MarketV2 × Nat) :=
  if ¬ (0 < args.initial_liquidity) then .error .InvalidLiquidity else
  if ¬ (args.initial_liquidity * 2 ≤ U64MAX) then .error .MathOverflow else
  .ok ({ market_id := args.market_id
         authority := authorityKey
         question := args.question
         end_time := args.end_time
         status := statusOpen
         winning_outcome := -1
         yes_pool := args.initial_liquidity
         no_pool := args.initial_liquidity
         total_yes_shares := 0
         total_no_shares := 0
         resolved_vault_balance := 0
         resolved_total_winning_shares := 0 },
       args.initial_liquidity * 2)

/-- `buy_shares` (lib.rs lines 74-171).  `now` models
`Clock::get()?.unix_timestamp`; `marketKey` models `market.key()`;
`userKey` models `ctx.accounts.user.key()`.  Returns the updated
market and position along with `shares_out`; the collateral moved to
the vault is the full `max_collateral_in`. -/
def buy_shares (now : Int) (marketKey : Nat) (market : MarketV2)
    (position : PositionV2) (userKey : Nat)
    (outcome_index max_collateral_in min_shares_out : Nat) :
    Except PredictionError (MarketV2 × PositionV2 × Nat) :=
  if ¬ (market.status = statusOpen) then .error .InvalidMarketStatus else
  if ¬ (now < market.end_time) then .error .MarketExpired else
  if ¬ (outcome_index ≤ 1) then .error .InvalidOutcome else
  if ¬ (0 < max_collateral_in) then .error .ZeroAmount else
  (apply_fee_in max_collateral_in).bind fun netfee =>
  let net_in := netfee.1
  (if outcome_index = 0 then cpmm_buy_yes market.yes_pool market.no_pool net_in
   else cpmm_buy_no market.yes_pool market.no_pool net_in).bind fun swap =>
  let new_yes := swap.1
  let new_no := swap.2.1
  let shares_out := swap.2.2
  if ¬ (min_shares_out ≤ shares_out) then .error .SlippageExceeded else
  if ¬ (0 < shares_out) then .error .ZeroSharesOut else
  let market1 : MarketV2 := { market with yes_pool := new_yes, no_pool := new_no }
  (if position.owner = 0 then
     (.ok { market := marketKey, owner := userKey, yes_shares := 0,
            no_shares := 0, claimed := false } :
       Except PredictionError PositionV2)
   else if ¬ (position.market = marketKey) then .error .PositionMarketMismatch
   else if ¬ (position.owner = userKey) then .error .PositionOwnerMismatch
   else .ok position).bind fun p1 =>
  if outcome_index = 0 then
    if ¬ (p1.yes_shares + shares_out ≤ U64MAX) then .error .MathOverflow else
    if ¬ (market1.total_yes_shares + shares_out ≤ U64MAX) then .error .MathOverflow else
    .ok ({ market1 with total_yes_shares := market1.total_yes_shares + shares_out },
         { p1 with yes_shares := p1.yes_shares + shares_out },
         shares_out)
  else
    if ¬ (p1.no_shares + shares_out ≤ U64MAX) then .error .MathOverflow else
    if ¬ (market1.total_no_shares + shares_out ≤ U64MAX) then .error .MathOverflow else
    .ok ({ market1 with total_no_shares := market1.total_no_shares + shares_out },
         { p1 with no_shares := p1.no_shares + shares_out },
         shares_out)

/-- `sell_shares` (lib.rs lines 177-311).  Returns the updated market
and position along with `net_out`, the collateral transferred from the
vault to the seller. -/
def sell_shares (now : Int) (marketKey : Nat) (market : MarketV2)
    (position : PositionV2) (userKey : Nat)
    (outcome_index shares_in min_collateral_out : Nat) :
    Except PredictionError (MarketV2 × PositionV2 × Nat) :=
  if ¬ (market.status = statusOpen) then .error .InvalidMarketStatus else
  if ¬ (now < market.end_time) then .error .MarketExpired else
  if ¬ (outcome_index ≤ 1) then .error .InvalidOutcome else
  if ¬ (0 < shares_in) then .error .ZeroAmount else
  if ¬ (position.market = marketKey) then .error .PositionMarketMismatch else
  if ¬ (position.owner = userKey) then .error .PositionOwnerMismatch else
  if position.claimed then .error .AlreadyClaimed else
  if ¬ (if outcome_index = 0 then shares_in ≤ position.yes_shares
        else shares_in ≤ position.no_shares) then .error .InsufficientShares else
  (if outcome_index = 0 then cpmm_sell_yes market.yes_pool market.no_pool shares_in
   else cpmm_sell_no market.yes_pool market.no_pool shares_in).bind fun swap =>
  let new_yes := swap.1
  let new_no := swap.2.1
  let gross_out := swap.2.2
  if ¬ (0 < gross_out) then .error .ZeroAmount else
  (apply_fee_out gross_out).bind fun netfee =>
  let net_out := netfee.1
  if ¬ (min_collateral_out ≤ net_out) then .error .SlippageExceeded else
  let market1 : MarketV2 := { market with yes_pool := new_yes, no_pool := new_no }
  if ¬ (net_out ≤ gross_out) then .error .MathOverflow else
  let fee_kept := gross_out - net_out
  (if 0 < fee_kept then
     if outcome_index = 0 then
       if ¬ (market1.no_pool + fee_kept ≤ U64MAX) then
         (.error .MathOverflow : Except PredictionError MarketV2)
       else .ok { market1 with no_pool := market1.no_pool + fee_kept }
     else
       if ¬ (market1.yes_pool + fee_kept ≤ U64MAX) then .error .MathOverflow
       else .ok { market1 with yes_pool := market1.yes_pool + fee_kept }
   else .ok market1).bind fun market2 =>
  if outcome_index = 0 then
    if ¬ (shares_in ≤ position.yes_shares) then .error .MathOverflow else
    if ¬ (shares_in ≤ market2.total_yes_shares) then .error .MathOverflow else
    .ok ({ market2 with total_yes_shares := market2.total_yes_shares - shares_in },
         { position with yes_shares := position.yes_shares - shares_in },
         net_out)
  else
    if ¬ (shares_in ≤ position.no_shares) then .error .MathOverflow else
    if ¬ (shares_in ≤ market2.total_no_shares) then .error .MathOverflow else
    .ok ({ market2 with total_no_shares := market2.total_no_shares - shares_in },
         { position with no_shares := position.no_shares - shares_in },
         net_out)

/-- `resolve_market` (lib.rs lines 318-346).  `vaultAmount` models
`ctx.accounts.vault.amount` at resolution time.  Note: the source reads
no clock, so the embedding takes no time parameter — resolution is not
gated on `end_time`. -/
def resolve_market (market : MarketV2) (authorityKey : Nat)
    (vaultAmount : Nat) (winning_outcome : Nat) :
    Except PredictionError MarketV2 :=
  if ¬ (authorityKey = market.authority) then .error .Unauthorized else
  if ¬ (market.status = statusOpen) then .error .InvalidMarketStatus else
  if ¬ (winning_outcome ≤ 1) then .error .InvalidOutcome else
  let total_winning_shares :=
    if winning_outcome = 0 then market.total_yes_shares else market.total_no_shares
  if ¬ (0 < total_winning_shares) then .error .NoWinnings else
  .ok { market with
        resolved_vault_balance := vaultAmount
        resolved_total_winning_shares := total_winning_shares
        status := statusResolved
        winning_outcome := (winning_outcome : Int) }

/-- The pro-rata payout formula of `claim_winnings_v2`
(lib.rs lines 388-392): `floor(vault_balance * shares / total)`,
exact because `Nat` division is floor division. -/
def claimPayout (vault_balance total_winning_shares user_winning_shares : Nat) : Nat :=
  vault_balance * user_winning_shares / total_winning_shares

/-- The checked `u128` payout chain of `claim_winnings_v2`
(lib.rs lines 388-396): `checked_mul` on `u128`, `checked_div`,
then the fallible narrowing `try_into::<u64>`. -/
def claim_payout_checked (vault_balance total_winning_shares user_winning_shares : Nat) :
    Except PredictionError Nat :=
  if ¬ (vault_balance * user_winning_shares ≤ U128MAX) then .error .MathOverflow else
  if total_winning_shares = 0 then .error .MathOverflow else
  let payout_u128 := claimPayout vault_balance total_winning_shares user_winning_shares
  if ¬ (payout_u128 ≤ U64MAX) then .error .MathOverflow else
  .ok payout_u128

/-- `claim_winnings_v2` (lib.rs lines 351-425).  Returns the payout
transferred from the vault and the updated position (with
`claimed := true`).  `winning as u8` is modelled by `Int.toNat`, exact
for the non-negative `i8` range the guard admits. -/
def claim_winnings_v2 (marketKey : Nat) (market : MarketV2)
    (position : PositionV2) (userKey : Nat) :
    Except PredictionError (Nat × PositionV2) :=
  if ¬ (market.status = statusResolved) then .error .MarketNotResolved else
  if ¬ (0 ≤ market.winning_outcome) then .error .InvalidWinningOutcome else
  if position.claimed then .error .AlreadyClaimed else
  if ¬ (position.market = marketKey) then .error .PositionMarketMismatch else
  if ¬ (position.owner = userKey) then .error .PositionOwnerMismatch else
  let total_winning_shares := market.resolved_total_winning_shares
  let vault_balance := market.resolved_vault_balance
  if ¬ (0 < total_winning_shares) then .error .NoWinnings else
  if ¬ (0 < vault_balance) then .error .NoWinnings else
  let wu := market.winning_outcome.toNat
  if ¬ (wu = 0 ∨ wu = 1) then .error .InvalidWinningOutcome else
  let user_winning_shares := if wu = 0 then position.yes_shares else position.no_shares
  if ¬ (0 < user_winning_shares) then .error .NoWinnings else
  (claim_payout_checked vault_balance total_winning_shares user_winning_shares).bind
    fun payout =>
  if ¬ (0 < payout) then .error .NoWinnings else
  .ok (payout, { position with claimed := true })

/-- The winning-outcome share balance a claimant is paid for
(lib.rs lines 380-384). -/
def userWinningShares (market : MarketV2) (position : PositionV2) : Nat :=
  if market.winning_outcome.toNat = 0 then position.yes_shares else position.no_shares

/-- Sum of the pro-rata payouts of a collection of claimants holding
the given winning-share balances, each computed by the
`claim_winnings_v2` formula against the fixed resolution snapshot. -/
def sumPayouts (vault_balance total_winning_shares : Nat) (shares : List Nat) : Nat :=
  (shares.map (fun s => claimPayout vault_balance total_winning_shares s)).sum

end Prediction

namespace Prediction

/-! ### Arithmetic helper lemmas -/

theorem u64_mul_le_U128 {a b : Nat} (ha : a ≤ U64MAX) (hb : b ≤ U64MAX) :
    a * b ≤ U128MAX := by
  have h := Nat.mul_le_mul ha hb
  unfold U64MAX U128MAX at *
  omega

theorem u64_add_le_U128 {a b : Nat} (ha : a ≤ U64MAX) (hb : b ≤ U64MAX) :
    a + b ≤ U128MAX := by
  unfold U64MAX U128MAX at *
  omega

/-- The divisor only grows when collateral is added, so the floored
quotient never exceeds the pre-trade reserve. -/
theorem div_shrink {x y d : Nat} (hy : 0 < y) : x * y / (y + d) ≤ x := by
  calc x * y / (y + d) ≤ x * y / y :=
        Nat.div_le_div_left (Nat.le_add_right y d) hy
    _ = x := Nat.mul_div_cancel x hy

/-! ### Characterization of the CPMM primitives on u64-bounded inputs -/

theorem cpmm_buy_yes_eq {x y d : Nat} (hx : 0 < x) (hy : 0 < y)
    (hxb : x ≤ U64MAX) (hyb : y ≤ U64MAX) (hdb : d ≤ U64MAX) :
    cpmm_buy_yes x y d =
      if y + d ≤ U64MAX then
        Except.ok (x * y / (y + d), y + d, x - x * y / (y + d))
      else Except.error PredictionError.MathOverflow := by
  have h1 : x * y ≤ U128MAX := u64_mul_le_U128 hxb hyb
  have h2 : y + d ≤ U128MAX := u64_add_le_U128 hyb hdb
  have h3 : ¬ (y + d = 0) := by omega
  have h4 : x * y / (y + d) ≤ x := div_shrink hy
  have h5 : x - x * y / (y + d) ≤ U64MAX := le_trans (Nat.sub_le x _) hxb
  have h6 : x * y / (y + d) ≤ U64MAX := le_trans h4 hxb
  simp [cpmm_buy_yes, hx, hy, h1, h2, h3, h4, h5, h6]
  split_ifs <;> first | rfl | omega

theorem cpmm_buy_no_eq {x y d : Nat} (hx : 0 < x) (hy : 0 < y)
    (hxb : x ≤ U64MAX) (hyb : y ≤ U64MAX) (hdb : d ≤ U64MAX) :
    cpmm_buy_no x y d =
      if x + d ≤ U64MAX then
        Except.ok (x + d, y * x / (x + d), y - y * x / (x + d))
      else Except.error PredictionError.MathOverflow := by
  have h1 : y * x ≤ U128MAX := u64_mul_le_U128 hyb hxb
  have h2 : x + d ≤ U128MAX := u64_add_le_U128 hxb hdb
  have h3 : ¬ (x + d = 0) := by omega
  have h4 : y * x / (x + d) ≤ y := div_shrink hx
  have h5 : y - y * x / (x + d) ≤ U64MAX := le_trans (Nat.sub_le y _) hyb
  have h6 : y * x / (x + d) ≤ U64MAX := le_trans h4 hyb
  simp [cpmm_buy_no, hx, hy, h1, h2, h3, h4, h5, h6]
  split_ifs <;> first | rfl | omega

theorem cpmm_sell_yes_eq {x y d : Nat} (hx : 0 < x) (hy : 0 < y)
    (hxb : x ≤ U64MAX) (hyb : y ≤ U64MAX) (hdb : d ≤ U64MAX) :
    cpmm_sell_yes x y d =
      if x + d ≤ U64MAX then
        Except.ok (x + d, x * y / (x + d), y - x * y / (x + d))
      else Except.error PredictionError.MathOverflow := by
  have h1 : x * y ≤ U128MAX := u64_mul_le_U128 hxb hyb
  have h2 : x + d ≤ U128MAX := u64_add_le_U128 hxb hdb
  have h3 : ¬ (x + d = 0) := by omega
  have h4 : x * y / (x + d) ≤ y := by
    have := div_shrink (x := y) (y := x) (d := d) hx
    simpa [Nat.mul_comm] using this
  have h5 : y - x * y / (x + d) ≤ U64MAX := le_trans (Nat.sub_le y _) hyb
  have h6 : x * y / (x + d) ≤ U64MAX := le_trans h4 hyb
  simp [cpmm_sell_yes, hx, hy, h1, h2, h3, h4, h5, h6]
  split_ifs <;> first | rfl | omega

theorem cpmm_sell_no_eq {x y d : Nat} (hx : 0 < x) (hy : 0 < y)
    (hxb : x ≤ U64MAX) (hyb : y ≤ U64MAX) (hdb : d ≤ U64MAX) :
    cpmm_sell_no x y d =
      if y + d ≤ U64MAX then
        Except.ok (y * x / (y + d), y + d, x - y * x / (y + d))
      else Except.error PredictionError.MathOverflow := by
  have h1 : y * x ≤ U128MAX := u64_mul_le_U128 hyb hxb
  have h2 : y + d ≤ U128MAX := u64_add_le_U128 hyb hdb
  have h3 : ¬ (y + d = 0) := by omega
  have h4 : y * x / (y + d) ≤ x := by
    have := div_shrink (x := x) (y := y) (d := d) hy
    simpa [Nat.mul_comm] using this
  have h5 : x - y * x / (y + d) ≤ U64MAX := le_trans (Nat.sub_le x _) hxb
  have h6 : y * x / (y + d) ≤ U64MAX := le_trans h4 hxb
  simp [cpmm_sell_no, hx, hy, h1, h2, h3, h4, h5, h6]
  split_ifs <;> first | rfl | omega

/-! ### Inversion lemmas: what a successful call tells us -/

theorem cpmm_buy_yes_pos {x y d : Nat} {r : Nat × Nat × Nat}
    (h : cpmm_buy_yes x y d = .ok r) : 0 < x ∧ 0 < y := by
  by_contra hc
  unfold cpmm_buy_yes at h
  rw [if_pos hc] at h
  exact Except.noConfusion h

theorem cpmm_buy_no_pos {x y d : Nat} {r : Nat × Nat × Nat}
    (h : cpmm_buy_no x y d = .ok r) : 0 < x ∧ 0 < y := by
  by_contra hc
  unfold cpmm_buy_no at h
  rw [if_pos hc] at h
  exact Except.noConfusion h

theorem cpmm_sell_yes_pos {x y d : Nat} {r : Nat × Nat × Nat}
    (h : cpmm_sell_yes x y d = .ok r) : 0 < x ∧ 0 < y := by
  by_contra hc
  unfold cpmm_sell_yes at h
  rw [if_pos hc] at h
  exact Except.noConfusion h

theorem cpmm_sell_no_pos {x y d : Nat} {r : Nat × Nat × Nat}
    (h : cpmm_sell_no x y d = .ok r) : 0 < x ∧ 0 < y := by
  by_contra hc
  unfold cpmm_sell_no at h
  rw [if_pos hc] at h
  exact Except.noConfusion h

theorem cpmm_buy_yes_ok {x y d a b c : Nat}
    (hxb : x ≤ U64MAX) (hyb : y ≤ U64MAX) (hdb : d ≤ U64MAX)
    (h : cpmm_buy_yes x y d = .ok (a, b, c)) :
    0 < x ∧ 0 < y ∧ a = x * y / (y + d) ∧ b = y + d ∧
      c = x - x * y / (y + d) := by
  obtain ⟨hx, hy⟩ := cpmm_buy_yes_pos h
  rw [cpmm_buy_yes_eq hx hy hxb hyb hdb] at h
  split_ifs at h with hle
  simp only [Except.ok.injEq, Prod.mk.injEq] at h
  exact ⟨hx, hy, h.1.symm, h.2.1.symm, h.2.2.symm⟩

theorem cpmm_buy_no_ok {x y d a b c : Nat}
    (hxb : x ≤ U64MAX) (hyb : y ≤ U64MAX) (hdb : d ≤ U64MAX)
    (h : cpmm_buy_no x y d = .ok (a, b, c)) :
    0 < x ∧ 0 < y ∧ a = x + d ∧ b = y * x / (x + d) ∧
      c = y - y * x / (x + d) := by
  obtain ⟨hx, hy⟩ := cpmm_buy_no_pos h
  rw [cpmm_buy_no_eq hx hy hxb hyb hdb] at h
  split_ifs at h with hle
  simp only [Except.ok.injEq, Prod.mk.injEq] at h
  exact ⟨hx, hy, h.1.symm, h.2.1.symm, h.2.2.symm⟩

theorem cpmm_sell_yes_ok {x y d a b c : Nat}
    (hxb : x ≤ U64MAX) (hyb : y ≤ U64MAX) (hdb : d ≤ U64MAX)
    (h : cpmm_sell_yes x y d = .ok (a, b, c)) :
    0 < x ∧ 0 < y ∧ a = x + d ∧ b = x * y / (x + d) ∧
      c = y - x * y / (x + d) := by
  obtain ⟨hx, hy⟩ := cpmm_sell_yes_pos h
  rw [cpmm_sell_yes_eq hx hy hxb hyb hdb] at h
  split_ifs at h with hle
  simp only [Except.ok.injEq, Prod.mk.injEq] at h
  exact ⟨hx, hy, h.1.symm, h.2.1.symm, h.2.2.symm⟩

theorem cpmm_sell_no_ok {x y d a b c : Nat}
    (hxb : x ≤ U64MAX) (hyb : y ≤ U64MAX) (hdb : d ≤ U64MAX)
    (h : cpmm_sell_no x y d = .ok (a, b, c)) :
    0 < x ∧ 0 < y ∧ a = y * x / (y + d) ∧ b = y + d ∧
      c = x - y * x / (y + d) := by
  obtain ⟨hx, hy⟩ := cpmm_sell_no_pos h
  rw [cpmm_sell_no_eq hx hy hxb hyb hdb] at h
  split_ifs at h with hle
  simp only [Except.ok.injEq, Prod.mk.injEq] at h
  exact ⟨hx, hy, h.1.symm, h.2.1.symm, h.2.2.symm⟩

/-! ### Fee lemmas -/

theorem fee_le_gross {g : Nat} : g * FEE_BPS / BPS_DENOM ≤ g := by
  calc g * FEE_BPS / BPS_DENOM ≤ g * BPS_DENOM / BPS_DENOM := by
        apply Nat.div_le_div_right
        exact Nat.mul_le_mul_left g (by norm_num [FEE_BPS, BPS_DENOM])
    _ = g := Nat.mul_div_cancel g (by norm_num [BPS_DENOM])

theorem apply_fee_in_eq {g : Nat} (h : g * FEE_BPS ≤ U64MAX) :
    apply_fee_in g =
      .ok (g - g * FEE_BPS / BPS_DENOM, g * FEE_BPS / BPS_DENOM) := by
  have hden : ¬ (BPS_DENOM = 0) := by norm_num [BPS_DENOM]
  simp [apply_fee_in, h, fee_le_gross, hden]

theorem apply_fee_in_overflow {g : Nat} (h : U64MAX < g * FEE_BPS) :
    apply_fee_in g = .error .MathOverflow := by
  simp [apply_fee_in, Nat.not_le.mpr h]

theorem apply_fee_out_eq {g : Nat} (h : g * FEE_BPS ≤ U64MAX) :
    apply_fee_out g =
      .ok (g - g * FEE_BPS / BPS_DENOM, g * FEE_BPS / BPS_DENOM) := by
  have hden : ¬ (BPS_DENOM = 0) := by norm_num [BPS_DENOM]
  simp [apply_fee_out, h, fee_le_gross, hden]

theorem apply_fee_out_overflow {g : Nat} (h : U64MAX < g * FEE_BPS) :
    apply_fee_out g = .error .MathOverflow := by
  simp [apply_fee_out, Nat.not_le.mpr h]

theorem apply_fee_in_cases (g : Nat) :
    apply_fee_in g =
        .ok (g - g * FEE_BPS / BPS_DENOM, g * FEE_BPS / BPS_DENOM) ∨
      apply_fee_in g = .error .MathOverflow := by
  by_cases h : g * FEE_BPS ≤ U64MAX
  · exact Or.inl (apply_fee_in_eq h)
  · exact Or.inr (apply_fee_in_overflow (Nat.not_le.mp h))

theorem apply_fee_out_cases (g : Nat) :
    apply_fee_out g =
        .ok (g - g * FEE_BPS / BPS_DENOM, g * FEE_BPS / BPS_DENOM) ∨
      apply_fee_out g = .error .MathOverflow := by
  by_cases h : g * FEE_BPS ≤ U64MAX
  · exact Or.inl (apply_fee_out_eq h)
  · exact Or.inr (apply_fee_out_overflow (Nat.not_le.mp h))


/-- Inverting a successful `Except.bind` (the model of the `?` operator). -/
theorem Except_bind_ok {E A B : Type} {e : Except E A} {f : A → Except E B} {b : B} :
    e.bind f = Except.ok b ↔ ∃ a, e = Except.ok a ∧ f a = Except.ok b := by
  cases e <;> simp [Except.bind]

/-- A successful `buy_shares` went through `apply_fee_in` and exactly one
CPMM buy leg whose outputs are the post-trade reserves, minted a
positive number of shares, and a pre-existing position keeps its
`claimed` flag. -/
theorem buy_shares_ok_inv {now : Int} {mk u oi maxin minout : Nat}
    {m m' : MarketV2} {p p' : PositionV2} {so : Nat}
    (h : buy_shares now mk m p u oi maxin minout = .ok (m', p', so)) :
    ((oi = 0 ∧ cpmm_buy_yes m.yes_pool m.no_pool
        (maxin - maxin * FEE_BPS / BPS_DENOM) = .ok (m'.yes_pool, m'.no_pool, so)) ∨
     (oi = 1 ∧ cpmm_buy_no m.yes_pool m.no_pool
        (maxin - maxin * FEE_BPS / BPS_DENOM) = .ok (m'.yes_pool, m'.no_pool, so))) ∧
    0 < so ∧ (p.owner ≠ 0 → p'.claimed = p.claimed) := by
  have hst : m.status = statusOpen := by
    by_contra hc
    unfold buy_shares at h
    rw [if_pos hc] at h
    exact Except.noConfusion h
  have hnow : now < m.end_time := by
    by_contra hc
    unfold buy_shares at h
    rw [if_neg (not_not_intro hst), if_pos hc] at h
    exact Except.noConfusion h
  have hoi1 : oi ≤ 1 := by
    by_contra hc
    unfold buy_shares at h
    rw [if_neg (not_not_intro hst), if_neg (not_not_intro hnow), if_pos hc] at h
    exact Except.noConfusion h
  have hmax : 0 < maxin := by
    by_contra hc
    unfold buy_shares at h
    rw [if_neg (not_not_intro hst), if_neg (not_not_intro hnow),
        if_neg (not_not_intro hoi1), if_pos hc] at h
    exact Except.noConfusion h
  unfold buy_shares at h
  rw [if_neg (not_not_intro hst), if_neg (not_not_intro hnow),
      if_neg (not_not_intro hoi1), if_neg (not_not_intro hmax)] at h
  rw [Except_bind_ok] at h
  obtain ⟨nf, hnf, h⟩ := h
  rcases apply_fee_in_cases maxin with hfe | hfe
  case inr => rw [hfe] at hnf; exact Except.noConfusion hnf
  rw [hfe] at hnf
  injection hnf with hnf
  subst hnf
  try dsimp only at h
  rw [Except_bind_ok] at h
  obtain ⟨swap, hswap, h⟩ := h
  obtain ⟨ny, nn, s2⟩ := swap
  try dsimp only at h
  have h5 : minout ≤ s2 := by
    by_contra hc
    rw [if_pos hc] at h
    exact Except.noConfusion h
  rw [if_neg (not_not_intro h5)] at h
  have h6 : 0 < s2 := by
    by_contra hc
    rw [if_pos hc] at h
    exact Except.noConfusion h
  rw [if_neg (not_not_intro h6)] at h
  try dsimp only at h
  rw [Except_bind_ok] at h
  obtain ⟨p1, hp1, h⟩ := h
  try dsimp only at h
  have hclaim : p.owner ≠ 0 → p1.claimed = p.claimed := by
    intro how
    rw [if_neg how] at hp1
    have hpm : p.market = mk := by
      by_contra hc
      rw [if_pos hc] at hp1
      exact Except.noConfusion hp1
    rw [if_neg (not_not_intro hpm)] at hp1
    have hpo : p.owner = u := by
      by_contra hc
      rw [if_pos hc] at hp1
      exact Except.noConfusion hp1
    rw [if_neg (not_not_intro hpo)] at hp1
    injection hp1 with hp1
    rw [← hp1]
  by_cases hoi : oi = 0
  · rw [if_pos hoi] at h hswap
    have h7 : p1.yes_shares + s2 ≤ U64MAX := by
      by_contra hc
      rw [if_pos hc] at h
      exact Except.noConfusion h
    rw [if_neg (not_not_intro h7)] at h
    have h8 : m.total_yes_shares + s2 ≤ U64MAX := by
      by_contra hc
      rw [if_pos hc] at h
      exact Except.noConfusion h
    rw [if_neg (not_not_intro h8)] at h
    simp only [Except.ok.injEq, Prod.mk.injEq] at h
    obtain ⟨hM, hP, hs⟩ := h
    subst hM
    subst hP
    subst hs
    refine ⟨Or.inl ⟨hoi, by simpa using hswap⟩, h6, fun how => by
      simpa using hclaim how⟩
  · rw [if_neg hoi] at h hswap
    have h7 : p1.no_shares + s2 ≤ U64MAX := by
      by_contra hc
      rw [if_pos hc] at h
      exact Except.noConfusion h
    rw [if_neg (not_not_intro h7)] at h
    have h8 : m.total_no_shares + s2 ≤ U64MAX := by
      by_contra hc
      rw [if_pos hc] at h
      exact Except.noConfusion h
    rw [if_neg (not_not_intro h8)] at h
    simp only [Except.ok.injEq, Prod.mk.injEq] at h
    obtain ⟨hM, hP, hs⟩ := h
    subst hM
    subst hP
    subst hs
    refine ⟨Or.inr ⟨by omega, by simpa using hswap⟩, h6, fun how => by
      simpa using hclaim how⟩

/-- A successful `sell_shares` went through exactly one CPMM sell leg;
the post-trade reserves are the leg's outputs except that the withheld
output fee is re-credited to the paying side's reserve, and the
position keeps its `claimed` flag. -/
theorem sell_shares_ok_inv {now : Int} {mk u oi si minout : Nat}
    {m m' : MarketV2} {p p' : PositionV2} {net : Nat}
    (h : sell_shares now mk m p u oi si minout = .ok (m', p', net)) :
    ∃ nyes nno g fk,
      ((oi = 0 ∧ cpmm_sell_yes m.yes_pool m.no_pool si = .ok (nyes, nno, g) ∧
         m'.yes_pool = nyes ∧ m'.no_pool = nno + fk) ∨
       (oi = 1 ∧ cpmm_sell_no m.yes_pool m.no_pool si = .ok (nyes, nno, g) ∧
         m'.yes_pool = nyes + fk ∧ m'.no_pool = nno)) ∧
      p'.claimed = p.claimed := by
  have hst : m.status = statusOpen := by
    by_contra hc
    unfold sell_shares at h
    rw [if_pos hc] at h
    exact Except.noConfusion h
  have hnow : now < m.end_time := by
    by_contra hc
    unfold sell_shares at h
    rw [if_neg (not_not_intro hst), if_pos hc] at h
    exact Except.noConfusion h
  have hoi1 : oi ≤ 1 := by
    by_contra hc
    unfold sell_shares at h
    rw [if_neg (not_not_intro hst), if_neg (not_not_intro hnow), if_pos hc] at h
    exact Except.noConfusion h
  have hsi : 0 < si := by
    by_contra hc
    unfold sell_shares at h
    rw [if_neg (not_not_intro hst), if_neg (not_not_intro hnow),
        if_neg (not_not_intro hoi1), if_pos hc] at h
    exact Except.noConfusion h
  have hpm : p.market = mk := by
    by_contra hc
    unfold sell_shares at h
    rw [if_neg (not_not_intro hst), if_neg (not_not_intro hnow),
        if_neg (not_not_intro hoi1), if_neg (not_not_intro hsi), if_pos hc] at h
    exact Except.noConfusion h
  have hpo : p.owner = u := by
    by_contra hc
    unfold sell_shares at h
    rw [if_neg (not_not_intro hst), if_neg (not_not_intro hnow),
        if_neg (not_not_intro hoi1), if_neg (not_not_intro hsi),
        if_neg (not_not_intro hpm), if_pos hc] at h
    exact Except.noConfusion h
  have hclaimed : p.claimed = false := by
    by_contra hc
    have hc2 : p.claimed = true := by
      cases hcb : p.claimed
      · exact absurd hcb hc
      · rfl
    unfold sell_shares at h
    rw [if_neg (not_not_intro hst), if_neg (not_not_intro hnow),
        if_neg (not_not_intro hoi1), if_neg (not_not_intro hsi),
        if_neg (not_not_intro hpm), if_neg (not_not_intro hpo)] at h
    rw [if_pos hc2] at h
    exact Except.noConfusion h
  have hbal : (if oi = 0 then si ≤ p.yes_shares else si ≤ p.no_shares) := by
    by_contra hc
    unfold sell_shares at h
    rw [if_neg (not_not_intro hst), if_neg (not_not_intro hnow),
        if_neg (not_not_intro hoi1), if_neg (not_not_intro hsi),
        if_neg (not_not_intro hpm), if_neg (not_not_intro hpo)] at h
    rw [if_neg (by simp [hclaimed])] at h
    rw [if_pos hc] at h
    exact Except.noConfusion h
  unfold sell_shares at h
  rw [if_neg (not_not_intro hst), if_neg (not_not_intro hnow),
      if_neg (not_not_intro hoi1), if_neg (not_not_intro hsi),
      if_neg (not_not_intro hpm), if_neg (not_not_intro hpo)] at h
  rw [if_neg (by simp [hclaimed])] at h
  rw [if_neg (not_not_intro hbal)] at h
  rw [Except_bind_ok] at h
  obtain ⟨swap, hswap, h⟩ := h
  obtain ⟨ny, nn, g⟩ := swap
  try dsimp only at h
  have hg : 0 < g := by
    by_contra hc
    rw [if_pos hc] at h
    exact Except.noConfusion h
  rw [if_neg (not_not_intro hg)] at h
  rw [Except_bind_ok] at h
  obtain ⟨nf, hnf, h⟩ := h
  rcases apply_fee_out_cases g with hfe | hfe
  case inr => rw [hfe] at hnf; exact Except.noConfusion hnf
  rw [hfe] at hnf
  injection hnf with hnf
  subst hnf
  try dsimp only at h
  have hslip : minout ≤ g - g * FEE_BPS / BPS_DENOM := by
    by_contra hc
    rw [if_pos hc] at h
    exact Except.noConfusion h
  rw [if_neg (not_not_intro hslip)] at h
  have hng : g - g * FEE_BPS / BPS_DENOM ≤ g := Nat.sub_le g _
  rw [if_neg (not_not_intro hng)] at h
  try dsimp only at h
  rw [Except_bind_ok] at h
  obtain ⟨market2, hm2, h⟩ := h
  try dsimp only at h
  by_cases hoi : oi = 0
  · rw [if_pos hoi] at hswap hm2 h
    have hm2p : market2.yes_pool = ny ∧
        market2.no_pool = nn + (g - (g - g * FEE_BPS / BPS_DENOM)) ∨
        market2.yes_pool = ny ∧ market2.no_pool = nn ∧
          g - (g - g * FEE_BPS / BPS_DENOM) = 0 := by
      by_cases hfk : 0 < g - (g - g * FEE_BPS / BPS_DENOM)
      · rw [if_pos hfk] at hm2
        have hb : nn + (g - (g - g * FEE_BPS / BPS_DENOM)) ≤ U64MAX := by
          by_contra hc
          rw [if_pos hc] at hm2
          exact Except.noConfusion hm2
        rw [if_neg (not_not_intro hb)] at hm2
        injection hm2 with hm2
        rw [← hm2]
        exact Or.inl ⟨rfl, rfl⟩
      · rw [if_neg hfk] at hm2
        injection hm2 with hm2
        rw [← hm2]
        exact Or.inr ⟨rfl, rfl, by omega⟩
    have h7 : si ≤ p.yes_shares := by simpa [hoi] using hbal
    rw [if_neg (not_not_intro h7)] at h
    have h8 : si ≤ market2.total_yes_shares := by
      by_contra hc
      rw [if_pos hc] at h
      exact Except.noConfusion h
    rw [if_neg (not_not_intro h8)] at h
    simp only [Except.ok.injEq, Prod.mk.injEq] at h
    obtain ⟨hM, hP, hn⟩ := h
    subst hM
    subst hP
    subst hn
    rcases hm2p with ⟨hmy, hmn⟩ | ⟨hmy, hmn, hfk0⟩
    · exact ⟨ny, nn, g, g - (g - g * FEE_BPS / BPS_DENOM),
        Or.inl ⟨hoi, hswap, by simpa using hmy, by simpa using hmn⟩, by simp⟩
    · exact ⟨ny, nn, g, 0,
        Or.inl ⟨hoi, hswap, by simpa using hmy, by simp [hmn]⟩, by simp⟩
  · rw [if_neg hoi] at hswap hm2 h
    have hm2p : market2.no_pool = nn ∧
        market2.yes_pool = ny + (g - (g - g * FEE_BPS / BPS_DENOM)) ∨
        market2.no_pool = nn ∧ market2.yes_pool = ny ∧
          g - (g - g * FEE_BPS / BPS_DENOM) = 0 := by
      by_cases hfk : 0 < g - (g - g * FEE_BPS / BPS_DENOM)
      · rw [if_pos hfk] at hm2
        have hb : ny + (g - (g - g * FEE_BPS / BPS_DENOM)) ≤ U64MAX := by
          by_contra hc
          rw [if_pos hc] at hm2
          exact Except.noConfusion hm2
        rw [if_neg (not_not_intro hb)] at hm2
        injection hm2 with hm2
        rw [← hm2]
        exact Or.inl ⟨rfl, rfl⟩
      · rw [if_neg hfk] at hm2
        injection hm2 with hm2
        rw [← hm2]
        exact Or.inr ⟨rfl, rfl, by omega⟩
    have h7 : si ≤ p.no_shares := by simpa [hoi] using hbal
    rw [if_neg (not_not_intro h7)] at h
    have h8 : si ≤ market2.total_no_shares := by
      by_contra hc
      rw [if_pos hc] at h
      exact Except.noConfusion h
    rw [if_neg (not_not_intro h8)] at h
    simp only [Except.ok.injEq, Prod.mk.injEq] at h
    obtain ⟨hM, hP, hn⟩ := h
    subst hM
    subst hP
    subst hn
    rcases hm2p with ⟨hmn, hmy⟩ | ⟨hmn, hmy, hfk0⟩
    · exact ⟨ny, nn, g, g - (g - g * FEE_BPS / BPS_DENOM),
        Or.inr ⟨by omega, hswap, by simpa using hmy, by simpa using hmn⟩, by simp⟩
    · exact ⟨ny, nn, g, 0,
        Or.inr ⟨by omega, hswap, by simp [hmy], by simpa using hmn⟩, by simp⟩

/-! ### Concrete scenario states (used by several theorems) -/

/-- The market of the spec's concrete scenario:
`create_market(market_id=1, end_time=T+1000, initial_liquidity=1_000_000)`. -/
def demoMarket : MarketV2 :=
  { market_id := 1, authority := 9, question := "q", end_time := 1000,
    status := statusOpen, winning_outcome := -1,
    yes_pool := 1000000, no_pool := 1000000,
    total_yes_shares := 0, total_no_shares := 0,
    resolved_vault_balance := 0, resolved_total_winning_shares := 0 }

/-- A freshly `init_if_needed`-zeroed position account
(`owner = Pubkey::default()`). -/
def freshPos : PositionV2 :=
  { market := 0, owner := 0, yes_shares := 0, no_shares := 0, claimed := false }

/-- The position held after buying one YES share on market key 7
as user 5. -/
def posOneYes : PositionV2 :=
  { market := 7, owner := 5, yes_shares := 1, no_shares := 0, claimed := false }

/-! ### C1: pro-rata payout sum and residual dust -/

/-- Division identity summed over a list of claimants: `T` times the
payout sum plus the sum of the per-claimant remainders is `V` times the
share sum. -/
theorem sumPayouts_key (V T : Nat) (l : List Nat) :
    T * sumPayouts V T l + (l.map (fun s => V * s % T)).sum = V * l.sum := by
  induction l with
  | nil => simp [sumPayouts]
  | cons s t ih =>
    have hdm := Nat.div_add_mod (V * s) T
    simp only [sumPayouts, List.map_cons, List.sum_cons] at ih ⊢
    calc T * (claimPayout V T s + (t.map (fun a => claimPayout V T a)).sum) +
          (V * s % T + (t.map (fun a => V * a % T)).sum)
        = (T * (V * s / T) + V * s % T) +
            (T * (t.map (fun a => claimPayout V T a)).sum +
              (t.map (fun a => V * a % T)).sum) := by
          unfold claimPayout
          ring
      _ = V * s + V * t.sum := by rw [hdm, ih]
      _ = V * (s + t.sum) := by ring

/-- Each division remainder is at most `T - 1`. -/
theorem mods_sum_le (V T : Nat) (hT : 0 < T) (l : List Nat) :
    (l.map (fun s => V * s % T)).sum ≤ l.length * (T - 1) := by
  induction l with
  | nil => simp
  | cons s t ih =>
    simp only [List.map_cons, List.sum_cons, List.length_cons]
    have h1 : V * s % T ≤ T - 1 := by
      have := Nat.mod_lt (V * s) hT
      omega
    calc V * s % T + (t.map (fun a => V * a % T)).sum
        ≤ (T - 1) + t.length * (T - 1) := Nat.add_le_add h1 ih
      _ = (t.length + 1) * (T - 1) := by ring

/-- Claim C1 (amended): with `resolved_vault_balance = V` and
`resolved_total_winning_shares = T > 0` fixed at resolution, for every
collection of positive winning-share balances that sum to exactly `T`
(the program invariant: the outstanding winning shares are exactly the
balances across all positions), the `claim_winnings_v2` payouts
`floor(V * s / T)` sum to at most `V` and the residual `V - Σ payouts`
is strictly less than the number of claimants.  (The claim as frozen
only assumed the balances sum to at most `T`; the residual bound fails
in that generality, see the counterexample.) -/
theorem payout_sum_residual (V T : Nat) (l : List Nat) (hT : 0 < T)
    (hpos : ∀ s ∈ l, 0 < s) (hsum : l.sum = T) :
    sumPayouts V T l ≤ V ∧ V - sumPayouts V T l < l.length := by
  have key := sumPayouts_key V T l
  rw [hsum] at key
  have h1 : T * sumPayouts V T l ≤ T * V := by
    calc T * sumPayouts V T l
        ≤ T * sumPayouts V T l + (l.map (fun s => V * s % T)).sum :=
          Nat.le_add_right _ _
      _ = V * T := key
      _ = T * V := Nat.mul_comm V T
  have hSP : sumPayouts V T l ≤ V := Nat.le_of_mul_le_mul_left h1 hT
  refine ⟨hSP, ?_⟩
  have hne : l ≠ [] := by
    intro he
    subst he
    simp at hsum
    omega
  have hn : 0 < l.length := List.length_pos.mpr hne
  have hMle : (l.map (fun s => V * s % T)).sum ≤ l.length * (T - 1) :=
    mods_sum_le V T hT l
  have hMlt : (l.map (fun s => V * s % T)).sum < l.length * T := by
    calc (l.map (fun s => V * s % T)).sum ≤ l.length * (T - 1) := hMle
      _ < l.length * T := mul_lt_mul_of_pos_left (by omega) hn
  by_contra hc
  push_neg at hc
  have h2 : sumPayouts V T l + l.length ≤ V := by omega
  have h3 : T * (sumPayouts V T l + l.length) ≤ T * V := Nat.mul_le_mul_left T h2
  have h4 : T * sumPayouts V T l + T * l.length ≤ T * V := by
    calc T * sumPayouts V T l + T * l.length
        = T * (sumPayouts V T l + l.length) := by ring
      _ ≤ T * V := h3
  have h5 : T * V = T * sumPayouts V T l + (l.map (fun s => V * s % T)).sum := by
    rw [Nat.mul_comm T V]
    exact key.symm
  have h6 : T * l.length ≤ (l.map (fun s => V * s % T)).sum := by
    rw [h5] at h4
    omega
  have h7 : T * l.length = l.length * T := Nat.mul_comm _ _
  omega

/-- Claim C1 (counterexample to the frozen statement): with
`V = T = 100` and a single claimant holding one winning share (shares
sum to `1 ≤ T`), the payout is `1`, so the residual is `99`, which is
not less than the number of claimants `1`. -/
theorem payout_residual_counterexample :
    (∀ s ∈ ([1] : List Nat), 0 < s) ∧ ([1] : List Nat).sum ≤ 100 ∧
    sumPayouts 100 100 [1] ≤ 100 ∧
    ¬ (100 - sumPayouts 100 100 [1] < ([1] : List Nat).length) := by
  refine ⟨by decide, by decide, by decide, by decide⟩

/-- Witness for `payout_sum_residual` at `V = 100`, `T = 10`,
balances `[4, 6]`. -/
theorem payout_sum_residual_witness :
    sumPayouts 100 10 [4, 6] ≤ 100 ∧ 100 - sumPayouts 100 10 [4, 6] < 2 := by
  have h := payout_sum_residual 100 10 [4, 6] (by decide) (by decide) (by decide)
  simpa using h

theorem Except_bind_ok_apply {E A B : Type} (a : A) (f : A → Except E B) :
    (Except.ok a : Except E A).bind f = f a := rfl

theorem Except_bind_error_apply {E A B : Type} (e : E) (f : A → Except E B) :
    (Except.error e : Except E A).bind f = .error e := rfl

/-! ### C2: the claim payout formula -/

/-- Claim C2 (confirmed): on a Resolved market with a recorded winning
outcome, called by the owner of an unclaimed position of that market
holding a positive winning-share balance, `claim_winnings_v2` pays out
exactly `floor(resolved_vault_balance * shares /
resolved_total_winning_shares)` (the `u128` product of two in-range
`u64` values cannot overflow), fails with `MathOverflow` when the
quotient does not fit in a `u64`, and fails with `NoWinnings` when the
computed payout is zero. -/
theorem claim_winnings_payout_formula
    {mk u : Nat} {m : MarketV2} {p : PositionV2}
    (hres : m.status = statusResolved)
    (hw : m.winning_outcome = 0 ∨ m.winning_outcome = 1)
    (hnc : p.claimed = false)
    (hpm : p.market = mk) (hpo : p.owner = u)
    (hT : 0 < m.resolved_total_winning_shares)
    (hV : 0 < m.resolved_vault_balance)
    (hVb : m.resolved_vault_balance ≤ U64MAX)
    (hsb : userWinningShares m p ≤ U64MAX)
    (hs : 0 < userWinningShares m p) :
    claim_winnings_v2 mk m p u =
      (if U64MAX < claimPayout m.resolved_vault_balance
            m.resolved_total_winning_shares (userWinningShares m p) then
         .error .MathOverflow
       else if claimPayout m.resolved_vault_balance
            m.resolved_total_winning_shares (userWinningShares m p) = 0 then
         .error .NoWinnings
       else
         .ok (claimPayout m.resolved_vault_balance
                m.resolved_total_winning_shares (userWinningShares m p),
              { p with claimed := true })) := by
  have hw0 : (0 : Int) ≤ m.winning_outcome := by
    rcases hw with hw | hw <;> omega
  have hwu : m.winning_outcome.toNat = 0 ∨ m.winning_outcome.toNat = 1 := by
    rcases hw with hw | hw <;> rw [hw] <;> simp
  have hncc : ¬ (p.claimed = true) := by
    rw [hnc]
    exact Bool.false_ne_true
  unfold userWinningShares at hs hsb ⊢
  unfold claim_winnings_v2
  rw [if_neg (not_not_intro hres), if_neg (not_not_intro hw0), if_neg hncc,
      if_neg (not_not_intro hpm), if_neg (not_not_intro hpo)]
  try dsimp only
  rw [if_neg (not_not_intro hT), if_neg (not_not_intro hV),
      if_neg (not_not_intro hwu)]
  try dsimp only
  rw [if_neg (not_not_intro hs)]
  unfold claim_payout_checked
  have hmul : m.resolved_vault_balance *
      (if m.winning_outcome.toNat = 0 then p.yes_shares else p.no_shares) ≤
        U128MAX := u64_mul_le_U128 hVb hsb
  rw [if_neg (not_not_intro hmul)]
  rw [if_neg (by omega : ¬ (m.resolved_total_winning_shares = 0))]
  try dsimp only
  by_cases hple : claimPayout m.resolved_vault_balance
      m.resolved_total_winning_shares
      (if m.winning_outcome.toNat = 0 then p.yes_shares else p.no_shares) ≤
        U64MAX
  · rw [if_neg (not_not_intro hple), Except_bind_ok_apply]
    rw [if_neg (Nat.not_lt.mpr hple)]
    by_cases hp0 : claimPayout m.resolved_vault_balance
        m.resolved_total_winning_shares
        (if m.winning_outcome.toNat = 0 then p.yes_shares else p.no_shares) = 0
    · rw [if_pos hp0, if_pos (by omega : ¬ (0 < claimPayout
        m.resolved_vault_balance m.resolved_total_winning_shares
        (if m.winning_outcome.toNat = 0 then p.yes_shares else p.no_shares)))]
    · rw [if_neg hp0, if_neg (not_not_intro (by omega : 0 < claimPayout
        m.resolved_vault_balance m.resolved_total_winning_shares
        (if m.winning_outcome.toNat = 0 then p.yes_shares else p.no_shares)))]
  · rw [if_pos hple, Except_bind_error_apply]
    rw [if_pos (Nat.not_le.mp hple)]

/-- The demo market after resolution with YES winning: snapshot vault
balance 1000 and 100 outstanding YES shares. -/
def resolvedMarket : MarketV2 :=
  { demoMarket with
    status := statusResolved
    winning_outcome := 0
    total_yes_shares := 100
    resolved_vault_balance := 1000
    resolved_total_winning_shares := 100 }

/-- A claimant of `resolvedMarket` holding 40 winning YES shares. -/
def winPos : PositionV2 :=
  { market := 7, owner := 5, yes_shares := 40, no_shares := 0, claimed := false }

/-- Witness for `claim_winnings_payout_formula`: the holder of 40 of the
100 winning shares against a 1000-unit snapshot is paid exactly 400. -/
theorem claim_winnings_payout_formula_witness :
    claim_winnings_v2 7 resolvedMarket winPos 5 =
      .ok (400, { winPos with claimed := true }) := by
  have h := @claim_winnings_payout_formula 7 5 resolvedMarket winPos
    (by rfl) (Or.inl (by rfl)) (by rfl) (by rfl) (by rfl)
    (by decide) (by decide) (by decide) (by decide) (by decide)
  rw [h]
  rfl

/-! ### C3: the concrete buy scenario and the general buy formula -/

/-- `demoMarket` after the spec's concrete buy
`buy(YES, gross_in=100000, min_shares_out=0)`. -/
def demoAfterBuy : MarketV2 :=
  { demoMarket with
    yes_pool := 909504
    no_pool := 1099500
    total_yes_shares := 90496 }

/-- The buyer's position after the concrete buy. -/
def demoPosAfterBuy : PositionV2 :=
  { market := 7, owner := 5, yes_shares := 90496, no_shares := 0,
    claimed := false }

/-- Claim C3 (confirmed): the concrete scenario — fee 500, net 99500,
new pools (909504, 1099500), 90496 shares minted — and the general buy
formula: a successful buy of outcome O with net input `in` against
reserves `(x, y)` sets the opposite reserve to `y + in`, the reserve of
O to `floor(x * y / (y + in))`, and mints exactly `x` minus that new
reserve. -/
theorem buy_scenario_and_formula :
    (apply_fee_in 100000 = .ok (99500, 500) ∧
     buy_shares 0 7 demoMarket freshPos 5 0 100000 0 =
       .ok (demoAfterBuy, demoPosAfterBuy, 90496)) ∧
    (∀ x y net a b so, x ≤ U64MAX → y ≤ U64MAX → net ≤ U64MAX →
      cpmm_buy_yes x y net = .ok (a, b, so) →
      b = y + net ∧ a = x * y / (y + net) ∧ so = x - a) ∧
    (∀ x y net a b so, x ≤ U64MAX → y ≤ U64MAX → net ≤ U64MAX →
      cpmm_buy_no x y net = .ok (a, b, so) →
      a = x + net ∧ b = y * x / (x + net) ∧ so = y - b) := by
  refine ⟨⟨by rfl, by rfl⟩, ?_, ?_⟩
  · intro x y net a b so hx hy hn h
    obtain ⟨_, _, ha, hb, hc⟩ := cpmm_buy_yes_ok hx hy hn h
    refine ⟨hb, ha, ?_⟩
    rw [ha]
    exact hc
  · intro x y net a b so hx hy hn h
    obtain ⟨_, _, ha, hb, hc⟩ := cpmm_buy_no_ok hx hy hn h
    refine ⟨ha, hb, ?_⟩
    rw [hb]
    exact hc

/-- Witness for `buy_scenario_and_formula` at the spec's numbers,
through the general formula applied to the concrete CPMM call. -/
theorem buy_scenario_and_formula_witness :
    (1099500 : Nat) = 1000000 + 99500 ∧
    (909504 : Nat) = 1000000 * 1000000 / (1000000 + 99500) ∧
    (90496 : Nat) = 1000000 - 909504 :=
  buy_scenario_and_formula.2.1 1000000 1000000 99500 909504 1099500 90496
    (by decide) (by decide) (by decide) (by rfl)

/-! ### C4: evolution of the reserve product across trades -/

/-- Floor division bracketing: `(k / d) * d` is within one divisor
of `k`. -/
theorem div_product_bounds {k d : Nat} (hd : 0 < d) :
    (k / d) * d ≤ k ∧ k < (k / d) * d + d := by
  have hdm := Nat.div_add_mod k d
  have hmod := Nat.mod_lt k hd
  have hcomm : d * (k / d) = (k / d) * d := Nat.mul_comm d (k / d)
  omega

/-- Claim C4 (counterexample to the frozen statement): the spec's own
concrete buy is a successful trade after which the reserve product
strictly decreases (909504 * 1099500 = 999999648000 < 10^12), so the
product is not non-decreasing across every trade. -/
theorem reserve_product_counterexample :
    buy_shares 0 7 demoMarket freshPos 5 0 100000 0 =
      .ok (demoAfterBuy, demoPosAfterBuy, 90496) ∧
    demoAfterBuy.yes_pool * demoAfterBuy.no_pool <
      demoMarket.yes_pool * demoMarket.no_pool :=
  ⟨by rfl, by decide⟩

/-- Claim C4 (amended): across every successful trade the reserve
product can drift, but boundedly: a buy never increases it and shrinks
it by strictly less than the post-trade reserves sum (one floor-division
remainder), and a sell (whose fee re-credit can also grow the product)
likewise keeps the pre-trade product below the post-trade product plus
the post-trade reserves sum. -/
theorem reserve_product_bounded_drift :
    ∀ (now : Int) (mk u oi amt minout : Nat) (m m' : MarketV2)
      (p p' : PositionV2) (r : Nat),
      m.yes_pool ≤ U64MAX → m.no_pool ≤ U64MAX → amt ≤ U64MAX →
      (buy_shares now mk m p u oi amt minout = .ok (m', p', r) →
        m'.yes_pool * m'.no_pool ≤ m.yes_pool * m.no_pool ∧
        m.yes_pool * m.no_pool <
          m'.yes_pool * m'.no_pool + m'.yes_pool + m'.no_pool) ∧
      (sell_shares now mk m p u oi amt minout = .ok (m', p', r) →
        m.yes_pool * m.no_pool <
          m'.yes_pool * m'.no_pool + m'.yes_pool + m'.no_pool) := by
  intro now mk u oi amt minout m m' p p' r hyb hnb hab
  constructor
  · intro h
    have hnet : amt - amt * FEE_BPS / BPS_DENOM ≤ U64MAX :=
      le_trans (Nat.sub_le _ _) hab
    obtain ⟨hcase, hso, _⟩ := buy_shares_ok_inv h
    rcases hcase with ⟨hoi, hcp⟩ | ⟨hoi, hcp⟩
    · obtain ⟨hx, hy, ha, hb, hc⟩ := cpmm_buy_yes_ok hyb hnb hnet hcp
      have hdpos : 0 < m.no_pool + (amt - amt * FEE_BPS / BPS_DENOM) := by omega
      have hbounds := div_product_bounds (k := m.yes_pool * m.no_pool) hdpos
      rw [ha, hb]
      constructor
      · exact hbounds.1
      · have h2 := hbounds.2
        omega
    · obtain ⟨hx, hy, ha, hb, hc⟩ := cpmm_buy_no_ok hyb hnb hnet hcp
      have hdpos : 0 < m.yes_pool + (amt - amt * FEE_BPS / BPS_DENOM) := by omega
      have hbounds := div_product_bounds (k := m.no_pool * m.yes_pool) hdpos
      rw [ha, hb]
      have hc1 : (m.yes_pool + (amt - amt * FEE_BPS / BPS_DENOM)) *
          (m.no_pool * m.yes_pool /
            (m.yes_pool + (amt - amt * FEE_BPS / BPS_DENOM))) =
          (m.no_pool * m.yes_pool /
            (m.yes_pool + (amt - amt * FEE_BPS / BPS_DENOM))) *
          (m.yes_pool + (amt - amt * FEE_BPS / BPS_DENOM)) := Nat.mul_comm _ _
      have hc2 : m.yes_pool * m.no_pool = m.no_pool * m.yes_pool :=
        Nat.mul_comm _ _
      constructor
      · have h1 := hbounds.1
        omega
      · have h2 := hbounds.2
        omega
  · intro h
    obtain ⟨nyes, nno, g, fk, hcase, _⟩ := sell_shares_ok_inv h
    rcases hcase with ⟨hoi, hcp, hmy, hmn⟩ | ⟨hoi, hcp, hmy, hmn⟩
    · obtain ⟨hx, hy, ha, hb, hc⟩ := cpmm_sell_yes_ok hyb hnb hab hcp
      have hdpos : 0 < m.yes_pool + amt := by omega
      have hbounds := div_product_bounds (k := m.yes_pool * m.no_pool) hdpos
      rw [hmy, hmn, ha, hb]
      have hexp : (m.yes_pool + amt) * (m.yes_pool * m.no_pool /
            (m.yes_pool + amt) + fk) =
          (m.yes_pool * m.no_pool / (m.yes_pool + amt)) * (m.yes_pool + amt) +
            (m.yes_pool + amt) * fk := by ring
      have h2 := hbounds.2
      omega
    · obtain ⟨hx, hy, ha, hb, hc⟩ := cpmm_sell_no_ok hyb hnb hab hcp
      have hdpos : 0 < m.no_pool + amt := by omega
      have hbounds := div_product_bounds (k := m.no_pool * m.yes_pool) hdpos
      rw [hmy, hmn, ha, hb]
      have hexp : (m.no_pool * m.yes_pool / (m.no_pool + amt) + fk) *
            (m.no_pool + amt) =
          (m.no_pool * m.yes_pool / (m.no_pool + amt)) * (m.no_pool + amt) +
            fk * (m.no_pool + amt) := by ring
      have hc2 : m.yes_pool * m.no_pool = m.no_pool * m.yes_pool :=
        Nat.mul_comm _ _
      have h2 := hbounds.2
      omega

/-- Witness for `reserve_product_bounded_drift` at the concrete demo
buy. -/
theorem reserve_product_bounded_drift_witness :
    demoAfterBuy.yes_pool * demoAfterBuy.no_pool ≤
      demoMarket.yes_pool * demoMarket.no_pool ∧
    demoMarket.yes_pool * demoMarket.no_pool <
      demoAfterBuy.yes_pool * demoAfterBuy.no_pool +
        demoAfterBuy.yes_pool + demoAfterBuy.no_pool :=
  (reserve_product_bounded_drift 0 7 5 0 100000 0 demoMarket demoAfterBuy
    freshPos demoPosAfterBuy 90496 (by decide) (by decide) (by decide)).1
    (by rfl)

/-! ### C5: round-trip value extraction -/

/-- An Open market with skewed reserves (2 YES, 1000 NO), both
positive. -/
def skewMarket : MarketV2 :=
  { demoMarket with yes_pool := 2, no_pool := 1000 }

/-- `skewMarket` after buying YES with gross collateral 1 (fee 0,
net 1): reserves (1, 1001), one share minted. -/
def skewAfterBuy : MarketV2 :=
  { demoMarket with yes_pool := 1, no_pool := 1001, total_yes_shares := 1 }

/-- `skewAfterBuy` after selling that one YES share back: reserves
(2, 502). -/
def skewAfterSell : MarketV2 :=
  { demoMarket with yes_pool := 2, no_pool := 502 }

/-- The trader's position after the round trip (share burned). -/
def posNoShares : PositionV2 :=
  { market := 7, owner := 5, yes_shares := 0, no_shares := 0,
    claimed := false }

/-- Claim C5 (code bug): on the Open market with positive reserves
(2, 1000), buying YES for gross 1 mints one share, and immediately
selling that share back returns net 499 — vastly more than the 1 unit
paid in.  The floor placed on the recomputed reserve hands the division
remainder to the trader, contradicting the stated rounding policy that
the pool is always favored and round trips always lose value. -/
theorem round_trip_profit_bug :
    buy_shares 0 7 skewMarket freshPos 5 0 1 0 =
      .ok (skewAfterBuy, posOneYes, 1) ∧
    sell_shares 0 7 skewAfterBuy posOneYes 5 0 1 0 =
      .ok (skewAfterSell, posNoShares, 499) ∧
    1 < 499 :=
  ⟨by rfl, by rfl, by decide⟩

/-! ### C6: the fee computation and its intermediate width -/

/-- Claim C6 (counterexample to the frozen statement): the fee multiply
is performed in 64-bit checked arithmetic, not a 128-bit intermediate,
so the all-ones `u64` input overflows the product and both fee helpers
fail with `MathOverflow` instead of returning `Ok`. -/
theorem fee_overflow_counterexample :
    U64MAX < U64MAX * FEE_BPS ∧
    apply_fee_in U64MAX = .error .MathOverflow ∧
    apply_fee_out U64MAX = .error .MathOverflow :=
  ⟨by decide, by rfl, by rfl⟩

/-- Claim C6 (amended): `apply_fee_in` and `apply_fee_out` return
`Ok` with `fee = floor(gross * 50 / 10000)` and `net = gross - fee`
exactly when `gross * 50` fits in a `u64` (`gross ≤
floor((2^64 - 1) / 50)`); the multiply is 64-bit checked arithmetic,
so for larger `gross` both fail with a math-overflow error (checked,
never truncating). -/
theorem apply_fee_spec (g : Nat) :
    (g * FEE_BPS ≤ U64MAX →
      apply_fee_in g =
          .ok (g - g * FEE_BPS / BPS_DENOM, g * FEE_BPS / BPS_DENOM) ∧
      apply_fee_out g =
          .ok (g - g * FEE_BPS / BPS_DENOM, g * FEE_BPS / BPS_DENOM)) ∧
    (U64MAX < g * FEE_BPS →
      apply_fee_in g = .error .MathOverflow ∧
      apply_fee_out g = .error .MathOverflow) :=
  ⟨fun h => ⟨apply_fee_in_eq h, apply_fee_out_eq h⟩,
   fun h => ⟨apply_fee_in_overflow h, apply_fee_out_overflow h⟩⟩

/-- Witness for `apply_fee_spec` at `gross = 100000`. -/
theorem apply_fee_spec_witness :
    apply_fee_in 100000 =
        .ok (100000 - 100000 * FEE_BPS / BPS_DENOM,
             100000 * FEE_BPS / BPS_DENOM) ∧
    apply_fee_out 100000 =
        .ok (100000 - 100000 * FEE_BPS / BPS_DENOM,
             100000 * FEE_BPS / BPS_DENOM) :=
  (apply_fee_spec 100000).1 (by decide)

/-! ### C7: positivity of the reserves -/

/-- The market created with `initial_liquidity = 1`. -/
def tinyMarket : MarketV2 :=
  { demoMarket with yes_pool := 1, no_pool := 1 }

/-- `tinyMarket` after buying YES with gross 1: the YES reserve is
driven to exactly zero by a successful trade. -/
def tinyAfterBuy : MarketV2 :=
  { demoMarket with yes_pool := 0, no_pool := 2, total_yes_shares := 1 }

/-- Claim C7 (counterexample to the frozen statement): starting from
`create` with `initial_liquidity = 1` (both pools 1 > 0), the
successful buy of YES for gross 1 leaves `yes_pool = 0`: a successful
trade does not keep both reserves strictly positive. -/
theorem pool_zero_counterexample :
    create_market_cpmm 9
        { market_id := 1, question := "q", end_time := 1000,
          initial_liquidity := 1 } = .ok (tinyMarket, 2) ∧
    buy_shares 0 7 tinyMarket freshPos 5 0 1 0 =
      .ok (tinyAfterBuy, posOneYes, 1) ∧
    tinyAfterBuy.yes_pool = 0 :=
  ⟨by rfl, by rfl, by rfl⟩

/-- Claim C7 (amended): `create` sets both reserves to the positive
initial liquidity, and every successful trade leaves the reserve that
received the trade's input strictly positive (the opposite pool on a
buy, the sold outcome's pool on a sell); the output-side reserve,
however, can be driven to zero, as the counterexample shows. -/
theorem input_side_reserve_positive :
    ∀ (now : Int) (mk u oi amt minout auth : Nat) (m m' mc : MarketV2)
      (p p' : PositionV2) (r backing : Nat) (args : CreateMarketCpmmArgs),
      m.yes_pool ≤ U64MAX → m.no_pool ≤ U64MAX → amt ≤ U64MAX →
      (create_market_cpmm auth args = .ok (mc, backing) →
        0 < mc.yes_pool ∧ 0 < mc.no_pool) ∧
      (buy_shares now mk m p u oi amt minout = .ok (m', p', r) →
        (oi = 0 → 0 < m'.no_pool) ∧ (oi = 1 → 0 < m'.yes_pool)) ∧
      (sell_shares now mk m p u oi amt minout = .ok (m', p', r) →
        (oi = 0 → 0 < m'.yes_pool) ∧ (oi = 1 → 0 < m'.no_pool)) := by
  intro now mk u oi amt minout auth m m' mc p p' r backing args hyb hnb hab
  refine ⟨?_, ?_, ?_⟩
  · intro hcr
    have hl : 0 < args.initial_liquidity := by
      by_contra hc
      unfold create_market_cpmm at hcr
      rw [if_pos hc] at hcr
      exact Except.noConfusion hcr
    unfold create_market_cpmm at hcr
    rw [if_neg (not_not_intro hl)] at hcr
    have h2 : args.initial_liquidity * 2 ≤ U64MAX := by
      by_contra hc
      rw [if_pos hc] at hcr
      exact Except.noConfusion hcr
    rw [if_neg (not_not_intro h2)] at hcr
    simp only [Except.ok.injEq, Prod.mk.injEq] at hcr
    obtain ⟨hm, _⟩ := hcr
    rw [← hm]
    exact ⟨hl, hl⟩
  · intro h
    have hnet : amt - amt * FEE_BPS / BPS_DENOM ≤ U64MAX :=
      le_trans (Nat.sub_le _ _) hab
    obtain ⟨hcase, _, _⟩ := buy_shares_ok_inv h
    constructor
    · intro hoi0
      rcases hcase with ⟨hoi, hcp⟩ | ⟨hoi, hcp⟩
      · obtain ⟨hx, hy, ha, hb, hc⟩ := cpmm_buy_yes_ok hyb hnb hnet hcp
        omega
      · omega
    · intro hoi1
      rcases hcase with ⟨hoi, hcp⟩ | ⟨hoi, hcp⟩
      · omega
      · obtain ⟨hx, hy, ha, hb, hc⟩ := cpmm_buy_no_ok hyb hnb hnet hcp
        omega
  · intro h
    obtain ⟨nyes, nno, g, fk, hcase, _⟩ := sell_shares_ok_inv h
    constructor
    · intro hoi0
      rcases hcase with ⟨hoi, hcp, hmy, hmn⟩ | ⟨hoi, hcp, hmy, hmn⟩
      · obtain ⟨hx, hy, ha, hb, hc⟩ := cpmm_sell_yes_ok hyb hnb hab hcp
        omega
      · omega
    · intro hoi1
      rcases hcase with ⟨hoi, hcp, hmy, hmn⟩ | ⟨hoi, hcp, hmy, hmn⟩
      · omega
      · obtain ⟨hx, hy, ha, hb, hc⟩ := cpmm_sell_no_ok hyb hnb hab hcp
        omega

/-- Witness for `input_side_reserve_positive` at the concrete demo
buy. -/
theorem input_side_reserve_positive_witness :
    0 < demoAfterBuy.no_pool :=
  ((input_side_reserve_positive 0 7 5 0 100000 0 9 demoMarket demoAfterBuy
      demoMarket freshPos demoPosAfterBuy 90496 2
      { market_id := 1, question := "q", end_time := 1000,
        initial_liquidity := 1 }
      (by decide) (by decide) (by decide)).2.1 (by rfl)).1 rfl

/-! ### C8: the claimed flag -/

/-- A successful claim always returns the position with
`claimed := true`. -/
theorem claim_winnings_ok_claimed {mk u pay : Nat} {m : MarketV2}
    {p p2 : PositionV2}
    (h : claim_winnings_v2 mk m p u = .ok (pay, p2)) : p2.claimed = true := by
  have c1 : m.status = statusResolved := by
    by_contra hc
    unfold claim_winnings_v2 at h
    rw [if_pos hc] at h
    exact Except.noConfusion h
  have c2 : (0 : Int) ≤ m.winning_outcome := by
    by_contra hc
    unfold claim_winnings_v2 at h
    rw [if_neg (not_not_intro c1), if_pos hc] at h
    exact Except.noConfusion h
  have c3 : ¬ (p.claimed = true) := by
    intro hc
    unfold claim_winnings_v2 at h
    rw [if_neg (not_not_intro c1), if_neg (not_not_intro c2), if_pos hc] at h
    exact Except.noConfusion h
  have c4 : p.market = mk := by
    by_contra hc
    unfold claim_winnings_v2 at h
    rw [if_neg (not_not_intro c1), if_neg (not_not_intro c2), if_neg c3,
        if_pos hc] at h
    exact Except.noConfusion h
  have c5 : p.owner = u := by
    by_contra hc
    unfold claim_winnings_v2 at h
    rw [if_neg (not_not_intro c1), if_neg (not_not_intro c2), if_neg c3,
        if_neg (not_not_intro c4), if_pos hc] at h
    exact Except.noConfusion h
  unfold claim_winnings_v2 at h
  rw [if_neg (not_not_intro c1), if_neg (not_not_intro c2), if_neg c3,
      if_neg (not_not_intro c4), if_neg (not_not_intro c5)] at h
  try dsimp only at h
  have c6 : 0 < m.resolved_total_winning_shares := by
    by_contra hc
    rw [if_pos hc] at h
    exact Except.noConfusion h
  rw [if_neg (not_not_intro c6)] at h
  have c7 : 0 < m.resolved_vault_balance := by
    by_contra hc
    rw [if_pos hc] at h
    exact Except.noConfusion h
  rw [if_neg (not_not_intro c7)] at h
  have c8 : m.winning_outcome.toNat = 0 ∨ m.winning_outcome.toNat = 1 := by
    by_contra hc
    rw [if_pos hc] at h
    exact Except.noConfusion h
  rw [if_neg (not_not_intro c8)] at h
  try dsimp only at h
  have c9 : 0 <
      (if m.winning_outcome.toNat = 0 then p.yes_shares else p.no_shares) := by
    by_contra hc
    rw [if_pos hc] at h
    exact Except.noConfusion h
  rw [if_neg (not_not_intro c9)] at h
  rw [Except_bind_ok] at h
  obtain ⟨payout, hpo, h⟩ := h
  try dsimp only at h
  have c10 : 0 < payout := by
    by_contra hc
    rw [if_pos hc] at h
    exact Except.noConfusion h
  rw [if_neg (not_not_intro c10)] at h
  simp only [Except.ok.injEq, Prod.mk.injEq] at h
  obtain ⟨_, hp2⟩ := h
  rw [← hp2]

/-- Claim C8 (confirmed): once a position's `claimed` flag is set, any
further `claim_winnings_v2` on it fails with `AlreadyClaimed` (the
market of a claimed position is Resolved with a recorded winner, and
nothing ever mutates those fields again), and the flag is monotonic:
no successful operation ever resets it — buys on an initialised
position and sells preserve it, and a successful claim sets it to
`true`.  In this pure model an error returns the state unchanged by
construction. -/
theorem claim_once_and_monotonic :
    ∀ (mk u : Nat) (m : MarketV2) (p : PositionV2),
      (m.status = statusResolved → 0 ≤ m.winning_outcome →
        p.claimed = true →
        claim_winnings_v2 mk m p u = .error .AlreadyClaimed) ∧
      (∀ pay p2, claim_winnings_v2 mk m p u = .ok (pay, p2) →
        p2.claimed = true) ∧
      (∀ (now : Int) (oi amt minout r : Nat) (m2 : MarketV2) (p2 : PositionV2),
        buy_shares now mk m p u oi amt minout = .ok (m2, p2, r) →
        p.owner ≠ 0 → p2.claimed = p.claimed) ∧
      (∀ (now : Int) (oi amt minout r : Nat) (m2 : MarketV2) (p2 : PositionV2),
        sell_shares now mk m p u oi amt minout = .ok (m2, p2, r) →
        p2.claimed = p.claimed) ∧
      (¬ (m.status = statusOpen) → ∀ (now : Int) (oi amt minout : Nat),
        buy_shares now mk m p u oi amt minout =
          .error .InvalidMarketStatus ∧
        sell_shares now mk m p u oi amt minout =
          .error .InvalidMarketStatus) := by
  intro mk u m p
  refine ⟨?_, ?_, ?_, ?_, ?_⟩
  · intro hres hw hcl
    unfold claim_winnings_v2
    rw [if_neg (not_not_intro hres), if_neg (not_not_intro hw), if_pos hcl]
  · intro pay p2 h
    exact claim_winnings_ok_claimed h
  · intro now oi amt minout r m2 p2 h how
    exact (buy_shares_ok_inv h).2.2 how
  · intro now oi amt minout r m2 p2 h
    obtain ⟨_, _, _, _, _, hcl⟩ := sell_shares_ok_inv h
    exact hcl
  · intro hno now oi amt minout
    constructor
    · unfold buy_shares
      rw [if_pos hno]
    · unfold sell_shares
      rw [if_pos hno]

/-- The winning position after it has already been claimed. -/
def claimedPos : PositionV2 := { winPos with claimed := true }

/-- Witness for `claim_once_and_monotonic`: the second claim on the
already-claimed position fails with `AlreadyClaimed`. -/
theorem claim_once_and_monotonic_witness :
    claim_winnings_v2 7 resolvedMarket claimedPos 5 =
      .error .AlreadyClaimed :=
  (claim_once_and_monotonic 7 5 resolvedMarket claimedPos).1 rfl (by decide) rfl

/-! ### C9: the resolve conditions -/

/-- Claim C9 (confirmed): `resolve_market` succeeds exactly when the
caller is the market authority, the market is Open, the winning index
is 0 or 1, and the chosen outcome has positive outstanding shares.  The
function reads no clock, so no `end_time` condition restricts it (the
model takes no time parameter at all, mirroring the source).  With zero
winning shares it fails with `NoWinnings`; an error leaves the market
unchanged by construction of the model. -/
theorem resolve_market_conditions :
    ∀ (m : MarketV2) (auth va w : Nat),
      ((resolve_market m auth va w).isOk = true ↔
        (auth = m.authority ∧ m.status = statusOpen ∧ w ≤ 1 ∧
          0 < (if w = 0 then m.total_yes_shares else m.total_no_shares))) ∧
      (auth = m.authority → m.status = statusOpen → w ≤ 1 →
        (if w = 0 then m.total_yes_shares else m.total_no_shares) = 0 →
        resolve_market m auth va w = .error .NoWinnings) := by
  intro m auth va w
  constructor
  · unfold resolve_market
    dsimp only
    split_ifs with h1 h2 h3 h4 <;> simp [Except.isOk] <;> tauto
  · intro ha hs hw hz
    unfold resolve_market
    rw [if_neg (not_not_intro ha), if_neg (not_not_intro hs),
        if_neg (not_not_intro hw)]
    dsimp only
    rw [if_pos (by omega : ¬ (0 <
      (if w = 0 then m.total_yes_shares else m.total_no_shares)))]

/-- A market with outstanding NO shares only. -/
def noSharesYesMarket : MarketV2 :=
  { demoMarket with total_no_shares := 50 }

/-- Witness for `resolve_market_conditions`: resolving YES on a market
with zero outstanding YES shares fails with `NoWinnings`, while
resolving NO succeeds. -/
theorem resolve_market_conditions_witness :
    resolve_market noSharesYesMarket 9 500 0 = .error .NoWinnings ∧
    (resolve_market noSharesYesMarket 9 500 1).isOk = true :=
  ⟨(resolve_market_conditions noSharesYesMarket 9 500 0).2 rfl rfl
      (by decide) (by decide),
   (resolve_market_conditions noSharesYesMarket 9 500 1).1.mpr
      ⟨rfl, rfl, by decide, by decide⟩⟩

/-! ### C10: total safety of the CPMM buy legs -/

/-- Claim C10 (confirmed): for positive `u64` reserves and any `u64`
net input, the bought-side quotient `floor(x * y / (y + net))` never
exceeds the pre-trade reserve `x`, so the checked subtraction producing
`shares_out` and the `u64` narrowing of the bought-side reserve always
succeed, `shares_out` is at most the pre-trade bought-side reserve, and
the only reachable failure is narrowing `y + net` back to `u64`: below
`U64MAX` the call returns exactly the CPMM tuple, above it the call
fails with `MathOverflow`. -/
theorem cpmm_buy_total_safety :
    ∀ x y d : Nat, 0 < x → 0 < y → x ≤ U64MAX → y ≤ U64MAX → d ≤ U64MAX →
      ((y + d ≤ U64MAX →
         cpmm_buy_yes x y d =
           .ok (x * y / (y + d), y + d, x - x * y / (y + d)) ∧
         x * y / (y + d) ≤ x ∧ x - x * y / (y + d) ≤ x) ∧
       (U64MAX < y + d → cpmm_buy_yes x y d = .error .MathOverflow)) ∧
      ((x + d ≤ U64MAX →
         cpmm_buy_no x y d =
           .ok (x + d, y * x / (x + d), y - y * x / (x + d)) ∧
         y * x / (x + d) ≤ y ∧ y - y * x / (x + d) ≤ y) ∧
       (U64MAX < x + d → cpmm_buy_no x y d = .error .MathOverflow)) := by
  intro x y d hx hy hxb hyb hdb
  have h1 := cpmm_buy_yes_eq hx hy hxb hyb hdb
  have h2 := cpmm_buy_no_eq hx hy hxb hyb hdb
  refine ⟨⟨?_, ?_⟩, ?_, ?_⟩
  · intro hle
    rw [h1, if_pos hle]
    exact ⟨rfl, div_shrink hy, Nat.sub_le _ _⟩
  · intro hlt
    rw [h1, if_neg (Nat.not_le.mpr hlt)]
  · intro hle
    rw [h2, if_pos hle]
    exact ⟨rfl, div_shrink hx, Nat.sub_le _ _⟩
  · intro hlt
    rw [h2, if_neg (Nat.not_le.mpr hlt)]

/-- Witness for `cpmm_buy_total_safety` at reserves (4, 6) and net
input 2. -/
theorem cpmm_buy_total_safety_witness :
    cpmm_buy_yes 4 6 2 = .ok (4 * 6 / (6 + 2), 6 + 2, 4 - 4 * 6 / (6 + 2)) ∧
    4 * 6 / (6 + 2) ≤ 4 ∧ 4 - 4 * 6 / (6 + 2) ≤ 4 :=
  ((cpmm_buy_total_safety 4 6 2 (by decide) (by decide) (by decide)
      (by decide) (by decide)).1).1 (by decide)
